import Mathlib

/-!
Shallow embedding of the `Exchange` reconciliation engine from
`src/classes/exchange.ts` (butsds/exchange-tools), together with theorems
checking its natural-language specification.

Modelling conventions:
* Records of the source side have type `S`, of the target side type `T`;
  the update payload `Partial<T>` is an opaque type `U`.
* Keys are `String`, as in the source (`Map<string, S>`).
* A JS `Map` is modelled as an insertion-ordered association list
  `List (String × α)`; `Map.has` / `Map.get` become `hasKey` / `lookupKey`.
* A thrown JS `Error` is modelled by its message `String`.
* The observable behaviour of one `run` invocation is a `trace` — an ordered
  list of `TraceEntry` values recording every event emission, every
  target-adapter write call, every invocation of the injected
  `getUpdateData` strategy, and every console message — plus an optional
  error (the rejection of the promise returned by `run`).
* JS async semantics: each `forEach(async cb)` callback runs synchronously
  up to its first `await` (so a gated write is *dispatched* synchronously),
  then suspends; its continuation (the item-event emission) runs as a later
  microtask.  With adapters whose promises resolve as soon as possible, all
  synchronous parts of all callbacks run first, then `runAfter` is emitted,
  and only then do the suspended continuations resume, in dispatch order.
  The trace is laid out in exactly that order: per-entry `sync` parts,
  then `evRunAfter`, then per-entry `deferred` parts.
* The two reads are modelled as resolving immediately, source first
  (the microtask order of `Promise.all([sourcePromise, targetPromise])`
  with already-resolved reads); even when the source build throws, the
  target `.then` callback still runs before `Promise.all` rejects, so the
  target map is still built and `targetDataReady` still emitted.
-/

/-- `ActionType = "do" | "skip" | "info"` from `src/types`. -/
inductive ActionType where
  | «do»
  | skip
  | info
deriving DecidableEq, Repr

/-- `ExchangePolicyType` from `src/types`: all three fields are optional
(`create?: ActionType` …), so each is an `Option`. -/
structure ExchangePolicyType where
  create : Option ActionType
  update : Option ActionType
  delete : Option ActionType
deriving DecidableEq, Repr

/-- The initial value of the `policy` field of `Exchange`
(`{ create: "info", update: "info", delete: "info" }`, lines 16–20). -/
def initialPolicy : ExchangePolicyType :=
  { create := some .info, update := some .info, delete := some .info }

/-- `setPolicy` (lines 35–38): `this.policy = { ...this.policy, ...policy }`.
Object spread lets every field present in the argument override the stored
one, while absent fields keep their previous value. -/
def setPolicy (old p : ExchangePolicyType) : ExchangePolicyType :=
  { create := match p.create with | some v => some v | none => old.create
    update := match p.update with | some v => some v | none => old.update
    delete := match p.delete with | some v => some v | none => old.delete }

/-- The bundle of abstract methods a concrete subclass of `Exchange<S, T>`
must implement (lines 30–33). -/
structure ExchangeStrategies (S T U : Type) where
  getSourceKey : S → String
  getTargetKey : T → String
  getUpdateData : S → T → Option U
  convertSourceToTarget : S → T

/-- `Map.has` on the association-list model of a JS `Map`. -/
def hasKey {α : Type} : List (String × α) → String → Bool
  | [], _ => false
  | (k', _) :: rest, k => k' == k || hasKey rest k

/-- `Map.get` on the association-list model of a JS `Map`. -/
def lookupKey {α : Type} : List (String × α) → String → Option α
  | [], _ => none
  | (k', v) :: rest, k => if k' == k then some v else lookupKey rest k

/-- The message of the error thrown by `putTo` on a duplicate key
(line 128). -/
def dupMsg (key : String) : String :=
  s!"Duplicate key \"{key}\" found in data."

/-- `putTo` (lines 123–133): insert each record of `data` into `target`
under its extracted key, throwing on a duplicate key.  The JS version
mutates the map in place and the `throw` aborts the `forEach`, so on error
the records before the duplicate have already been inserted; we therefore
return the map as mutated so far together with the optional error
message. -/
def putTo {α : Type} (target : List (String × α)) :
    List α → (α → String) → List (String × α) × Option String
  | [], _ => (target, none)
  | item :: rest, getKey =>
    let key := getKey item
    if hasKey target key then (target, some (dupMsg key))
    else putTo (target ++ [(key, item)]) rest getKey

/-- One observable step of a `run` invocation: an event emission
(`emitter.emit`), a target-adapter write call, a call of the injected
`getUpdateData` strategy, or a console message.  For the `info`-policy
update message the payload is printed as a second console argument in the
source; only the message text is recorded here. -/
inductive TraceEntry (S T U : Type) where
  | evRunBefore
  | evSourceDataReady
  | evTargetDataReady
  | evRunAfter
  | evItemCreated (item : S)
  | evItemUpdated (item : U)
  | evItemDeleted (item : T)
  | callCreate (data : T)
  | callUpdate (data : U)
  | callDelete (data : T)
  | callGetUpdateData (source : S) (target : T)
  | logInfo (msg : String)
deriving DecidableEq, Repr

/-- The contribution of one `forEach(async …)` callback: the part that runs
synchronously up to the first `await`, and the continuation that runs as a
later microtask (after the awaited write resolves). -/
structure EntryOut (S T U : Type) where
  sync : List (TraceEntry S T U)
  deferred : List (TraceEntry S T U)

/-- The body of the `sourceData.forEach` callback (lines 55–85): look the
key up in the target map; missing key is the create branch gated by
`policy.create`; present key calls `getUpdateData` and gates the update by
`policy.update`, with the `false` sentinel logging a skip message. -/
def processSourceEntry {S T U : Type} (x : ExchangeStrategies S T U)
    (pol : ExchangePolicyType) (targetData : List (String × T))
    (key : String) (sourceItem : S) : EntryOut S T U :=
  match lookupKey targetData key with
  | none =>
    match pol.create with
    | some .«do» =>
        { sync := [.callCreate (x.convertSourceToTarget sourceItem)]
          deferred := [.evItemCreated sourceItem] }
    | some .info =>
        { sync := [.logInfo s!"Item with key \"{key}\" will be created."]
          deferred := [] }
    | _ => { sync := [], deferred := [] }
  | some targetItem =>
    match x.getUpdateData sourceItem targetItem with
    | some updateData =>
      match pol.update with
      | some .«do» =>
          { sync := [.callGetUpdateData sourceItem targetItem,
                     .callUpdate updateData]
            deferred := [.evItemUpdated updateData] }
      | some .info =>
          { sync := [.callGetUpdateData sourceItem targetItem,
                     .logInfo s!"Item with key \"{key}\" will be updated with data:"]
            deferred := [] }
      | _ =>
          { sync := [.callGetUpdateData sourceItem targetItem]
            deferred := [] }
    | none =>
        { sync := [.callGetUpdateData sourceItem targetItem,
                   .logInfo s!"Skip condition met for item with key \"{key}\". No update needed."]
          deferred := [] }

/-- The body of the `targetData.forEach` callback (lines 87–96): a target
record whose key is absent from the source map is the delete branch, gated
by `policy.delete`. -/
def processTargetEntry {S T U : Type} (pol : ExchangePolicyType)
    (sourceData : List (String × S)) (key : String) (targetItem : T) :
    EntryOut S T U :=
  if hasKey sourceData key then { sync := [], deferred := [] }
  else
    match pol.delete with
    | some .«do» =>
        { sync := [.callDelete targetItem], deferred := [.evItemDeleted targetItem] }
    | some .info =>
        { sync := [.logInfo s!"Item with key \"{key}\" will be deleted."]
          deferred := [] }
    | _ => { sync := [], deferred := [] }

/-- The instance fields `sourceData` / `targetData` of `Exchange`
(lines 13–14).  They are initialised once per *instance*, not per `run`. -/
structure ExchangeState (S T : Type) where
  sourceData : List (String × S)
  targetData : List (String × T)

/-- The state of a freshly constructed `Exchange` instance: two empty
maps. -/
def freshState (S T : Type) : ExchangeState S T := { sourceData := [], targetData := [] }

/-- The outcome of one `run` invocation: its observable trace and, when the
promise returned by `run` rejects, the thrown error's message. -/
structure RunResult (S T U : Type) where
  trace : List (TraceEntry S T U)
  error : Option String
deriving DecidableEq, Repr

/-- `run` (lines 40–99), with the instance state passed explicitly and the
two adapter reads resolving to `srcList` / `tgtList`.  Emits `runBefore`;
builds both keyed maps with `putTo` *into the existing instance maps*
(which `run` never clears), emitting `sourceDataReady` / `targetDataReady`
on each successful build; rejects with the first build error (source
first); otherwise runs the two `forEach` acting loops — whose callbacks are
async but whose promises are never collected — and emits `runAfter`
synchronously, the suspended write continuations resuming afterwards. -/
def run {S T U : Type} (x : ExchangeStrategies S T U) (pol : ExchangePolicyType)
    (st : ExchangeState S T) (srcList : List S) (tgtList : List T) :
    RunResult S T U × ExchangeState S T :=
  let (sourceData, srcErr) := putTo st.sourceData srcList x.getSourceKey
  let (targetData, tgtErr) := putTo st.targetData tgtList x.getTargetKey
  let st' : ExchangeState S T := { sourceData := sourceData, targetData := targetData }
  let pre : List (TraceEntry S T U) :=
    [.evRunBefore]
      ++ (if srcErr = none then [.evSourceDataReady] else [])
      ++ (if tgtErr = none then [.evTargetDataReady] else [])
  match srcErr with
  | some e => ({ trace := pre, error := some e }, st')
  | none =>
    match tgtErr with
    | some e => ({ trace := pre, error := some e }, st')
    | none =>
      let srcOuts := sourceData.map fun p => processSourceEntry x pol targetData p.1 p.2
      let tgtOuts := targetData.map fun p => processTargetEntry pol sourceData p.1 p.2
      let syncs := (srcOuts ++ tgtOuts).flatMap EntryOut.sync
      let defs := (srcOuts ++ tgtOuts).flatMap EntryOut.deferred
      ({ trace := pre ++ syncs ++ [.evRunAfter] ++ defs, error := none }, st')

/-- A `run` on a freshly constructed instance. -/
def runFresh {S T U : Type} (x : ExchangeStrategies S T U)
    (pol : ExchangePolicyType) (srcList : List S) (tgtList : List T) :
    RunResult S T U :=
  (run x pol (freshState S T) srcList tgtList).1

/-- The policy `{ create: "do", update: "do", delete: "do" }`. -/
def polAllDo : ExchangePolicyType :=
  { create := some .«do», update := some .«do», delete := some .«do» }

/- Trace projections. -/

/-- The payloads of the target-adapter `create` calls of a trace, in
order. -/
def createCalls {S T U : Type} (tr : List (TraceEntry S T U)) : List T :=
  tr.filterMap fun e => match e with | .callCreate d => some d | _ => none

/-- The payloads of the target-adapter `update` calls of a trace, in
order. -/
def updateCalls {S T U : Type} (tr : List (TraceEntry S T U)) : List U :=
  tr.filterMap fun e => match e with | .callUpdate d => some d | _ => none

/-- The payloads of the target-adapter `delete` calls of a trace, in
order. -/
def deleteCalls {S T U : Type} (tr : List (TraceEntry S T U)) : List T :=
  tr.filterMap fun e => match e with | .callDelete d => some d | _ => none

/-- The argument pairs of the `getUpdateData` strategy invocations of a
trace, in order. -/
def decisionCalls {S T U : Type} (tr : List (TraceEntry S T U)) : List (S × T) :=
  tr.filterMap fun e => match e with | .callGetUpdateData s t => some (s, t) | _ => none

/-- The payloads of the `itemCreated` events of a trace, in order. -/
def itemCreatedEvents {S T U : Type} (tr : List (TraceEntry S T U)) : List S :=
  tr.filterMap fun e => match e with | .evItemCreated d => some d | _ => none

/-- The payloads of the `itemUpdated` events of a trace, in order. -/
def itemUpdatedEvents {S T U : Type} (tr : List (TraceEntry S T U)) : List U :=
  tr.filterMap fun e => match e with | .evItemUpdated d => some d | _ => none

/-- The payloads of the `itemDeleted` events of a trace, in order. -/
def itemDeletedEvents {S T U : Type} (tr : List (TraceEntry S T U)) : List T :=
  tr.filterMap fun e => match e with | .evItemDeleted d => some d | _ => none

/- The spec's diff sets (§4.2 / §8), written from the spec's own words to be
compared with what `run` does; they are *not* part of the embedding of the
source. -/

/-- Spec §8: `toCreate = {s ∈ S : key(s) ∉ keys(T)}`, in source order. -/
def specToCreate {S T U : Type} (x : ExchangeStrategies S T U)
    (src : List S) (tgt : List T) : List S :=
  src.filter fun s => !(tgt.any fun t => x.getTargetKey t == x.getSourceKey s)

/-- Spec §8: `toDelete = {t ∈ T : key(t) ∉ keys(S)}`, in target order. -/
def specToDelete {S T U : Type} (x : ExchangeStrategies S T U)
    (src : List S) (tgt : List T) : List T :=
  tgt.filter fun t => !(src.any fun s => x.getSourceKey s == x.getTargetKey t)

/-- Spec §8: the matched pairs `{(s,t) : key(s) = key(t)}`, each source
record paired with the (under unique keys unique) target record of the same
key, in source order. -/
def specMatchedPairs {S T U : Type} (x : ExchangeStrategies S T U)
    (src : List S) (tgt : List T) : List (S × T) :=
  src.filterMap fun s =>
    (tgt.find? fun t => x.getTargetKey t == x.getSourceKey s).map fun t => (s, t)

/- A concrete instantiation mirroring the repository's test fixture
(`TestData` with fields `id`, `name`; key = `id`). -/

/-- A concrete record type for witnesses, as in the repository's tests. -/
structure Rec where
  id : String
  name : String
deriving DecidableEq, Repr

/-- Concrete strategies on `Rec`: key is `id`, a pair needs an update
exactly when the names differ (payload: the whole source record), and
conversion is the identity. -/
def testStrategies : ExchangeStrategies Rec Rec Rec where
  getSourceKey r := r.id
  getTargetKey r := r.id
  getUpdateData s t := if s.name == t.name then none else some s
  convertSourceToTarget s := s

/- The event emitter.  `Exchange` delegates to the `eventemitter3`
dependency: `emitter.on(event, fn)` appends a listener for `event`, and
`emitter.off(event, fn)` (`removeListener`) keeps only the listeners whose
function does *not* match `fn` — i.e. it removes every registration of a
matching function, not just one.  A JS function value is identified here by
a `Nat` id; the emitter state is the insertion-ordered list of
(event, handler) registrations. -/

/-- The seven event names of `EventSubscriberType` (src/unnamed/part_001). -/
inductive EventName where
  | runBefore
  | runAfter
  | sourceDataReady
  | targetDataReady
  | itemCreated
  | itemUpdated
  | itemDeleted
deriving DecidableEq, Repr

/-- The order in which `for (const event in subscriber)` visits the keys of
a subscriber object holding all seven events in declaration order. -/
def allEvents : List EventName :=
  [.runBefore, .runAfter, .sourceDataReady, .targetDataReady,
   .itemCreated, .itemUpdated, .itemDeleted]

/-- A `Partial<EventSubscriberType>` argument of `subscribe`: at most one
handler (a function value, identified by a `Nat` id) per event name. -/
abbrev SubscriberSpec : Type := EventName → Option Nat

/-- The registration list of an `eventemitter3` emitter. -/
abbrev EmitterState : Type := List (EventName × Nat)

/-- `emitter.on(event, fn)`: append a registration. -/
def emitterOn (em : EmitterState) (e : EventName) (h : Nat) : EmitterState :=
  em ++ [(e, h)]

/-- `emitter.off(event, fn)` (`eventemitter3`'s `removeListener`): keep
exactly the registrations that do not match the (event, function) pair —
every matching registration is removed. -/
def emitterOff (em : EmitterState) (e : EventName) (h : Nat) : EmitterState :=
  em.filter fun p => !(p.1 == e && p.2 == h)

/-- The handlers invoked, in order, by `emitter.emit(e, …)`. -/
def listenersFor (em : EmitterState) (e : EventName) : List Nat :=
  (em.filter fun p => p.1 == e).map Prod.snd

/-- One step of the loop in `subscribe` (lines 102–109): `emitter.on` when
the subscriber object carries a handler for this event. -/
def subStep (sub : SubscriberSpec) (em : EmitterState) (e : EventName) : EmitterState :=
  match sub e with | some h => emitterOn em e h | none => em

/-- One step of the loop in the unsubscribe closure (lines 112–119):
`emitter.off` when the subscriber object carries a handler for this
event. -/
def unsubStep (sub : SubscriberSpec) (em : EmitterState) (e : EventName) : EmitterState :=
  match sub e with | some h => emitterOff em e h | none => em

/-- `subscribe` (lines 101–109): `emitter.on` for each event name whose
handler in the subscriber object is set. -/
def subscribeAdd (sub : SubscriberSpec) (em : EmitterState) : EmitterState :=
  allEvents.foldl (subStep sub) em

/-- The unsubscribe closure returned by `subscribe` (lines 111–120):
`emitter.off` for each event name whose handler in the subscriber object is
set. -/
def unsubscribeRemove (sub : SubscriberSpec) (em : EmitterState) : EmitterState :=
  allEvents.foldl (unsubStep sub) em

/-- An emitter with no registrations, as after the constructor. -/
def emptyEmitter : EmitterState := []

/-- A subscriber object registering one and the same handler function
(id 7) for `runBefore` — the shape a caller produces by passing the same
function object to two `subscribe` calls. -/
def sharedSubscriber : SubscriberSpec :=
  fun e => match e with | .runBefore => some 7 | _ => none

/- ----------------------------------------------------------------- -/
/- Claim theorems.                                                    -/
/- ----------------------------------------------------------------- -/

/-- C2: the claim says `runAfter` is emitted only after every dispatched
gated write has resolved.  The code dispatches its per-entry actions from
`forEach(async …)` callbacks without collecting their promises, so at the
failing input (source `[{id:"1",name:"A"}]`, empty target, policy
`{create:"do",…}`) the trace emits `runAfter` immediately after
*dispatching* the create call and before the write's continuation (the
`itemCreated` emission, which runs only once the write has resolved):
`runAfter` fires while the gated create is still pending. -/
theorem run_runAfter_before_write_resolution :
    (runFresh testStrategies polAllDo [Rec.mk "1" "A"] []).trace =
      [.evRunBefore, .evSourceDataReady, .evTargetDataReady,
       .callCreate (Rec.mk "1" "A"), .evRunAfter,
       .evItemCreated (Rec.mk "1" "A")] ∧
    (runFresh testStrategies polAllDo [Rec.mk "1" "A"] []).error = none := by
  constructor <;> rfl

/-- C3: the claim (and spec) say each `run` starts from empty keyed
collections even on a reused instance.  The code's `sourceData` /
`targetData` maps are instance fields that `run` never clears, so a second
`run` over the same provider data finds every key already present and
rejects with a spurious duplicate-key error, unlike a run on a fresh
instance. -/
theorem second_run_fails_on_carried_over_state :
    (run testStrategies polAllDo (freshState Rec Rec)
        [Rec.mk "1" "A"] []).1.error = none ∧
    (run testStrategies polAllDo
        (run testStrategies polAllDo (freshState Rec Rec)
          [Rec.mk "1" "A"] []).2
        [Rec.mk "1" "A"] []).1.error =
      some "Duplicate key \"1\" found in data." ∧
    (run testStrategies polAllDo
        (run testStrategies polAllDo (freshState Rec Rec)
          [Rec.mk "1" "A"] []).2
        [Rec.mk "1" "A"] []).1.trace =
      [TraceEntry.evRunBefore, TraceEntry.evTargetDataReady] := by
  refine ⟨rfl, rfl, rfl⟩

/-- C4, counterexample: the claim says the duplicate-key error names both
the key and the side it occurred on.  The thrown message is
`Duplicate key "k" found in data.` for *both* sides: a duplicate of key
"1" among the source records and a duplicate of key "1" among the target
records produce the identical error, so the error cannot name the side. -/
theorem dup_error_does_not_name_side :
    (runFresh testStrategies polAllDo
        [Rec.mk "1" "A", Rec.mk "1" "B"] [Rec.mk "2" "X"]).error =
      some "Duplicate key \"1\" found in data." ∧
    (runFresh testStrategies polAllDo
        [Rec.mk "2" "X"] [Rec.mk "1" "A", Rec.mk "1" "B"]).error =
      some "Duplicate key \"1\" found in data." := by
  constructor <;> rfl

/-- C7: the policy defaults every kind to `"info"` when never set, and
`setPolicy` merges rather than replaces: each kind named in the argument
takes its value from the argument, and each kind absent from the argument
keeps its previous value — which, applied to each call in turn, gives the
claimed behaviour across repeated calls. -/
theorem setPolicy_defaults_and_merges :
    initialPolicy.create = some ActionType.info ∧
    initialPolicy.update = some ActionType.info ∧
    initialPolicy.delete = some ActionType.info ∧
    (∀ old p : ExchangePolicyType, ∀ v,
      p.create = some v → (setPolicy old p).create = some v) ∧
    (∀ old p : ExchangePolicyType,
      p.create = none → (setPolicy old p).create = old.create) ∧
    (∀ old p : ExchangePolicyType, ∀ v,
      p.update = some v → (setPolicy old p).update = some v) ∧
    (∀ old p : ExchangePolicyType,
      p.update = none → (setPolicy old p).update = old.update) ∧
    (∀ old p : ExchangePolicyType, ∀ v,
      p.delete = some v → (setPolicy old p).delete = some v) ∧
    (∀ old p : ExchangePolicyType,
      p.delete = none → (setPolicy old p).delete = old.delete) := by
  refine ⟨rfl, rfl, rfl, ?_, ?_, ?_, ?_, ?_, ?_⟩ <;>
    first
      | (intro old p v h; simp [setPolicy, h])
      | (intro old p h; simp [setPolicy, h])

/-- C7, witness: `setPolicy({create:"do"})` on the default policy sets
`create` and keeps `update` at its previous (default) value. -/
theorem setPolicy_defaults_and_merges_witness :
    ((⟨some .«do», none, none⟩ : ExchangePolicyType).create = some .«do») ∧
    (setPolicy initialPolicy ⟨some .«do», none, none⟩).create =
      some ActionType.«do» ∧
    ((⟨some .«do», none, none⟩ : ExchangePolicyType).update = none) ∧
    (setPolicy initialPolicy ⟨some .«do», none, none⟩).update =
      initialPolicy.update :=
  ⟨rfl,
   setPolicy_defaults_and_merges.2.2.2.1 initialPolicy _ _ rfl,
   rfl,
   setPolicy_defaults_and_merges.2.2.2.2.2.2.1 initialPolicy _ rfl⟩

/- Emitter lemmas for C8. -/

/-- Registering a listener for event `e'` leaves the listener list of every
event unchanged except for appending to `e'`'s own list. -/
theorem listenersFor_emitterOn (em : EmitterState) (e' : EventName) (h : Nat)
    (e : EventName) :
    listenersFor (emitterOn em e' h) e =
      listenersFor em e ++ (if e' = e then [h] else []) := by
  by_cases he : e' = e <;>
    simp [emitterOn, listenersFor, List.filter_append, he]

/-- `emitter.off` for event `e'` and handler `h` removes exactly the
registrations of `h` under `e'`, leaving every other event's listener list
unchanged. -/
theorem listenersFor_emitterOff (em : EmitterState) (e' : EventName) (h : Nat)
    (e : EventName) :
    listenersFor (emitterOff em e' h) e =
      if e' = e then (listenersFor em e).filter (fun h2 => !(h2 == h))
      else listenersFor em e := by
  induction em with
  | nil => by_cases he : e' = e <;> simp [emitterOff, listenersFor, he]
  | cons p rest ih =>
    rcases p with ⟨e₀, h₀⟩
    by_cases he : e' = e <;>
      by_cases h1 : e₀ = e' <;>
        by_cases h3 : h₀ = h <;>
          simp_all [emitterOff, listenersFor, List.filter_cons] <;>
            (split <;> simp_all)

/-- A subscribe step for an event other than `e` does not change `e`'s
listener list. -/
theorem listenersFor_subStep_ne (sub : SubscriberSpec) (em : EmitterState)
    (e' e : EventName) (hne : e' ≠ e) :
    listenersFor (subStep sub em e') e = listenersFor em e := by
  unfold subStep
  cases sub e' with
  | none => rfl
  | some h => simp [listenersFor_emitterOn, hne]

/-- An unsubscribe step for an event other than `e` does not change `e`'s
listener list. -/
theorem listenersFor_unsubStep_ne (sub : SubscriberSpec) (em : EmitterState)
    (e' e : EventName) (hne : e' ≠ e) :
    listenersFor (unsubStep sub em e') e = listenersFor em e := by
  unfold unsubStep
  cases sub e' with
  | none => rfl
  | some h => simp [listenersFor_emitterOff, hne]

/-- Folding subscribe steps over events not containing `e` leaves `e`'s
listener list unchanged. -/
theorem listenersFor_foldl_subStep_not_mem (sub : SubscriberSpec)
    (e : EventName) :
    ∀ (evs : List EventName) (em : EmitterState), e ∉ evs →
      listenersFor (evs.foldl (subStep sub) em) e = listenersFor em e := by
  intro evs
  induction evs with
  | nil => intro em _; rfl
  | cons e₀ rest ih =>
    intro em hmem
    rw [List.foldl_cons, ih _ (fun hc => hmem (List.mem_cons_of_mem _ hc)),
      listenersFor_subStep_ne sub em e₀ e
        (fun hc => hmem (hc ▸ List.mem_cons_self _ _))]

/-- Folding unsubscribe steps over events not containing `e` leaves `e`'s
listener list unchanged. -/
theorem listenersFor_foldl_unsubStep_not_mem (sub : SubscriberSpec)
    (e : EventName) :
    ∀ (evs : List EventName) (em : EmitterState), e ∉ evs →
      listenersFor (evs.foldl (unsubStep sub) em) e = listenersFor em e := by
  intro evs
  induction evs with
  | nil => intro em _; rfl
  | cons e₀ rest ih =>
    intro em hmem
    rw [List.foldl_cons, ih _ (fun hc => hmem (List.mem_cons_of_mem _ hc)),
      listenersFor_unsubStep_ne sub em e₀ e
        (fun hc => hmem (hc ▸ List.mem_cons_self _ _))]

/-- Folding subscribe steps over a duplicate-free event list containing `e`
appends exactly the subscriber's handler for `e` (when set). -/
theorem listenersFor_foldl_subStep_mem (sub : SubscriberSpec) (e : EventName) :
    ∀ (evs : List EventName) (em : EmitterState), evs.Nodup → e ∈ evs →
      listenersFor (evs.foldl (subStep sub) em) e =
        listenersFor em e ++ (sub e).toList := by
  intro evs
  induction evs with
  | nil => intro em _ hmem; cases hmem
  | cons e₀ rest ih =>
    intro em hnd hmem
    rw [List.foldl_cons]
    by_cases he : e₀ = e
    · subst he
      have hnotin : e₀ ∉ rest := (List.nodup_cons.mp hnd).1
      rw [listenersFor_foldl_subStep_not_mem sub e₀ rest _ hnotin]
      unfold subStep
      cases hs : sub e₀ with
      | none => simp
      | some h => simp [listenersFor_emitterOn, hs]
    · have hmem' : e ∈ rest := by
        cases List.mem_cons.mp hmem with
        | inl hc => exact absurd hc.symm he
        | inr hc => exact hc
      rw [ih _ (List.nodup_cons.mp hnd).2 hmem',
        listenersFor_subStep_ne sub em e₀ e he]

/-- Folding unsubscribe steps over a duplicate-free event list containing
`e` removes exactly the registrations of the subscriber's handler for `e`
(when set). -/
theorem listenersFor_foldl_unsubStep_mem (sub : SubscriberSpec) (e : EventName) :
    ∀ (evs : List EventName) (em : EmitterState), evs.Nodup → e ∈ evs →
      listenersFor (evs.foldl (unsubStep sub) em) e =
        (match sub e with
         | some h => (listenersFor em e).filter (fun h2 => !(h2 == h))
         | none => listenersFor em e) := by
  intro evs
  induction evs with
  | nil => intro em _ hmem; cases hmem
  | cons e₀ rest ih =>
    intro em hnd hmem
    rw [List.foldl_cons]
    by_cases he : e₀ = e
    · subst he
      have hnotin : e₀ ∉ rest := (List.nodup_cons.mp hnd).1
      rw [listenersFor_foldl_unsubStep_not_mem sub e₀ rest _ hnotin]
      unfold unsubStep
      cases hs : sub e₀ with
      | none => simp
      | some h => simp [listenersFor_emitterOff, hs]
    · have hmem' : e ∈ rest := by
        cases List.mem_cons.mp hmem with
        | inl hc => exact absurd hc.symm he
        | inr hc => exact hc
      rw [ih _ (List.nodup_cons.mp hnd).2 hmem',
        listenersFor_unsubStep_ne sub em e₀ e he]

/-- Every event name occurs in `allEvents`, without duplicates. -/
theorem allEvents_complete : (∀ e : EventName, e ∈ allEvents) ∧ allEvents.Nodup := by
  constructor
  · intro e; cases e <;> simp [allEvents]
  · decide

/-- C8, counterexample: the claim says handlers registered by *other*
subscribe calls remain registered after one call's unsubscribe runs.  When
the same handler function (id 7) for `runBefore` is passed to two
`subscribe` calls, both registrations exist afterwards; but `eventemitter3`'s
`removeListener` removes *every* listener whose function matches, so the
first call's unsubscribe also removes the second call's registration: after
it, emitting `runBefore` invokes nothing. -/
theorem unsubscribe_removes_shared_handler_of_other_call :
    listenersFor
        (subscribeAdd sharedSubscriber
          (subscribeAdd sharedSubscriber emptyEmitter)) .runBefore = [7, 7] ∧
    listenersFor
        (unsubscribeRemove sharedSubscriber
          (subscribeAdd sharedSubscriber
            (subscribeAdd sharedSubscriber emptyEmitter))) .runBefore = [] := by
  constructor <;> rfl

/-- C8, amended: for every emitter state, the unsubscribe operation
returned by a `subscribe` call removes, for each event named in that call,
every registration of the handler passed for that event — from whichever
subscribe call it came — and leaves all other registrations, in order;
dually, `subscribe` appends exactly the handlers passed in the call.  So
handlers registered by other subscribe calls keep being invoked exactly
when they are not the same function as one passed to this call for the
same event. -/
theorem subscribe_unsubscribe_exact (sub : SubscriberSpec) (em : EmitterState)
    (e : EventName) :
    listenersFor (subscribeAdd sub em) e =
      listenersFor em e ++ (sub e).toList ∧
    listenersFor (unsubscribeRemove sub em) e =
      (match sub e with
       | some h => (listenersFor em e).filter (fun h2 => !(h2 == h))
       | none => listenersFor em e) :=
  ⟨listenersFor_foldl_subStep_mem sub e allEvents em
      allEvents_complete.2 (allEvents_complete.1 e),
   listenersFor_foldl_unsubStep_mem sub e allEvents em
      allEvents_complete.2 (allEvents_complete.1 e)⟩

/- Keyed-collection lemmas. -/

/-- `hasKey` over an appended singleton. -/
theorem hasKey_append_single {α : Type} (acc : List (String × α)) (k : String)
    (v : α) (k' : String) :
    hasKey (acc ++ [(k, v)]) k' = (hasKey acc k' || (k == k')) := by
  induction acc with
  | nil => simp [hasKey]
  | cons p rest ih => cases p; simp [hasKey, ih, Bool.or_assoc]

/-- On a record list whose keys are pairwise distinct (and absent from the
accumulator), `putTo` succeeds and appends the association pairs in input
order. -/
theorem putTo_ok {α : Type} (getKey : α → String) :
    ∀ (lst : List α) (acc : List (String × α)),
      (lst.map getKey).Nodup →
      (∀ a ∈ lst, hasKey acc (getKey a) = false) →
      putTo acc lst getKey = (acc ++ lst.map fun a => (getKey a, a), none) := by
  intro lst
  induction lst with
  | nil => intro acc _ _; simp [putTo]
  | cons a rest ih =>
    intro acc hnd hdisj
    have ha : hasKey acc (getKey a) = false := hdisj a (List.mem_cons_self _ _)
    rw [List.map_cons] at hnd
    obtain ⟨hnot, hnd'⟩ := List.nodup_cons.mp hnd
    rw [putTo, ha]
    simp only [Bool.false_eq_true, if_false]
    rw [ih (acc ++ [(getKey a, a)]) hnd' ?_]
    · simp
    · intro b hb
      rw [hasKey_append_single, hdisj b (List.mem_cons_of_mem _ hb)]
      have hne : getKey a ≠ getKey b := by
        intro hc
        exact hnot (hc ▸ List.mem_map_of_mem getKey hb)
      simp [hne]

/-- The association list built from a record list by pairing each record
with its key (the successful result of `putTo` from an empty map). -/
def builtMap {α : Type} (getKey : α → String) (lst : List α) :
    List (String × α) :=
  lst.map fun a => (getKey a, a)

/-- `Map.get` on a built map finds the first record with the looked-up
key. -/
theorem lookupKey_builtMap {α : Type} (getKey : α → String) (lst : List α)
    (k : String) :
    lookupKey (builtMap getKey lst) k = lst.find? fun a => getKey a == k := by
  induction lst with
  | nil => rfl
  | cons a rest ih =>
    simp only [builtMap, List.map_cons] at ih ⊢
    by_cases h : getKey a == k <;>
      simp [lookupKey, List.find?_cons, h, ih]

/-- `Map.has` on a built map is `List.any` on the records. -/
theorem hasKey_builtMap {α : Type} (getKey : α → String) (lst : List α)
    (k : String) :
    hasKey (builtMap getKey lst) k = lst.any fun a => getKey a == k := by
  induction lst with
  | nil => rfl
  | cons a rest ih =>
    simp only [builtMap, List.map_cons] at ih ⊢
    simp [hasKey, ih]

/-- `find?` comes up empty exactly when `any` is false. -/
theorem find?_isNone_eq_not_any {α : Type} (p : α → Bool) (l : List α) :
    (l.find? p).isNone = !(l.any p) := by
  induction l with
  | nil => rfl
  | cons a rest ih =>
    by_cases h : p a <;> simp [List.find?_cons, h, ih]

/-- The `forEach` callback outputs of the source loop of a fresh run with
unique keys, in map (= input) order. -/
def sourceOuts {S T U : Type} (x : ExchangeStrategies S T U)
    (pol : ExchangePolicyType) (src : List S) (tgt : List T) :
    List (EntryOut S T U) :=
  src.map fun s =>
    processSourceEntry x pol (builtMap x.getTargetKey tgt) (x.getSourceKey s) s

/-- The `forEach` callback outputs of the target loop of a fresh run with
unique keys, in map (= input) order. -/
def targetOuts {S T U : Type} (x : ExchangeStrategies S T U)
    (pol : ExchangePolicyType) (src : List S) (tgt : List T) :
    List (EntryOut S T U) :=
  tgt.map fun t =>
    processTargetEntry pol (builtMap x.getSourceKey src) (x.getTargetKey t) t

/-- Shape of a fresh run when both sides have unique keys: both builds
succeed, and the trace is the three readiness events, the synchronous parts
of all acting callbacks, `runAfter`, and then the deferred continuations. -/
theorem runFresh_nodup_eq {S T U : Type} (x : ExchangeStrategies S T U)
    (pol : ExchangePolicyType) (src : List S) (tgt : List T)
    (hs : (src.map x.getSourceKey).Nodup) (ht : (tgt.map x.getTargetKey).Nodup) :
    runFresh x pol src tgt =
      { trace :=
          [.evRunBefore, .evSourceDataReady, .evTargetDataReady]
            ++ (sourceOuts x pol src tgt ++ targetOuts x pol src tgt).flatMap
                EntryOut.sync
            ++ [.evRunAfter]
            ++ (sourceOuts x pol src tgt ++ targetOuts x pol src tgt).flatMap
                EntryOut.deferred
        error := none } := by
  have h1 : putTo [] src x.getSourceKey = (builtMap x.getSourceKey src, none) := by
    rw [putTo_ok x.getSourceKey src [] hs (by intro a _; rfl)]
    simp [builtMap]
  have h2 : putTo [] tgt x.getTargetKey = (builtMap x.getTargetKey tgt, none) := by
    rw [putTo_ok x.getTargetKey tgt [] ht (by intro a _; rfl)]
    simp [builtMap]
  simp only [runFresh, run, freshState, h1, h2]
  simp [sourceOuts, targetOuts, builtMap, List.map_map]
  rfl

/- Generic list plumbing for trace projections. -/

/-- `filterMap` distributes into a `flatMap`. -/
theorem filterMap_flatMap {α β γ : Type} (g : α → List β) (f : β → Option γ) :
    ∀ l : List α, (l.flatMap g).filterMap f = l.flatMap fun a => (g a).filterMap f := by
  intro l
  induction l with
  | nil => rfl
  | cons a rest ih => simp [List.flatMap_cons, List.filterMap_append, ih]

/-- A `flatMap` of guarded singletons is a filtered map. -/
theorem flatMap_ite_singleton {α β : Type} (p : α → Bool) (f : α → β) :
    ∀ l : List α, (l.flatMap fun a => if p a then [f a] else []) = (l.filter p).map f := by
  intro l
  induction l with
  | nil => rfl
  | cons a rest ih =>
    by_cases h : p a <;> simp [List.flatMap_cons, List.filter_cons, h, ih]

/-- A `flatMap` of `Option.toList` is a `filterMap`. -/
theorem flatMap_toList {α β : Type} (f : α → Option β) :
    ∀ l : List α, (l.flatMap fun a => (f a).toList) = l.filterMap f := by
  intro l
  induction l with
  | nil => rfl
  | cons a rest ih =>
    cases h : f a <;> simp [List.flatMap_cons, List.filterMap_cons, h, ih]

/-- A `flatMap` of pointwise-empty lists is empty. -/
theorem flatMap_eq_nil_of {α β : Type} (g : α → List β) :
    ∀ l : List α, (∀ a ∈ l, g a = []) → l.flatMap g = [] := by
  intro l
  induction l with
  | nil => intro _; rfl
  | cons a rest ih =>
    intro h
    rw [List.flatMap_cons, h a (List.mem_cons_self _ _),
      ih fun b hb => h b (List.mem_cons_of_mem _ hb)]
    rfl

/- Per-entry projections of the acting callbacks. -/

/-- Create calls of one source-loop callback: exactly one dispatched
conversion when the key is absent from the target map and the create
policy is `"do"`; the continuation dispatches none. -/
theorem createCalls_processSourceEntry {S T U : Type} (x : ExchangeStrategies S T U)
    (pol : ExchangePolicyType) (tm : List (String × T)) (k : String) (s : S) :
    createCalls (processSourceEntry x pol tm k s).sync =
      (if (lookupKey tm k).isNone && (pol.create == some ActionType.«do»)
       then [x.convertSourceToTarget s] else []) ∧
    createCalls (processSourceEntry x pol tm k s).deferred = [] := by
  cases hl : lookupKey tm k with
  | none =>
    cases hc : pol.create with
    | none => simp [processSourceEntry, hl, hc, createCalls]
    | some a => cases a <;> simp [processSourceEntry, hl, hc, createCalls]
  | some t =>
    cases hd : x.getUpdateData s t with
    | none => simp [processSourceEntry, hl, hd, createCalls]
    | some u =>
      cases hu : pol.update with
      | none => simp [processSourceEntry, hl, hd, hu, createCalls]
      | some a => cases a <;> simp [processSourceEntry, hl, hd, hu, createCalls]

/-- Update calls of one source-loop callback: exactly the decided payload
when the key matches, the decision is a payload, and the update policy is
`"do"`. -/
theorem updateCalls_processSourceEntry {S T U : Type} (x : ExchangeStrategies S T U)
    (pol : ExchangePolicyType) (tm : List (String × T)) (k : String) (s : S) :
    updateCalls (processSourceEntry x pol tm k s).sync =
      (if pol.update == some ActionType.«do»
       then ((lookupKey tm k).bind (x.getUpdateData s)).toList else []) ∧
    updateCalls (processSourceEntry x pol tm k s).deferred = [] := by
  cases hl : lookupKey tm k with
  | none =>
    cases hc : pol.create with
    | none => simp [processSourceEntry, hl, hc, updateCalls]
    | some a => cases a <;> simp [processSourceEntry, hl, hc, updateCalls]
  | some t =>
    cases hd : x.getUpdateData s t with
    | none => simp [processSourceEntry, hl, hd, updateCalls]
    | some u =>
      cases hu : pol.update with
      | none => simp [processSourceEntry, hl, hd, hu, updateCalls]
      | some a => cases a <;> simp [processSourceEntry, hl, hd, hu, updateCalls]

/-- Strategy invocations of one source-loop callback: exactly one, with the
matched pair, whenever the key is present in the target map — whatever the
policy and whatever the decision. -/
theorem decisionCalls_processSourceEntry {S T U : Type} (x : ExchangeStrategies S T U)
    (pol : ExchangePolicyType) (tm : List (String × T)) (k : String) (s : S) :
    decisionCalls (processSourceEntry x pol tm k s).sync =
      ((lookupKey tm k).map fun t => (s, t)).toList ∧
    decisionCalls (processSourceEntry x pol tm k s).deferred = [] := by
  cases hl : lookupKey tm k with
  | none =>
    cases hc : pol.create with
    | none => simp [processSourceEntry, hl, hc, decisionCalls]
    | some a => cases a <;> simp [processSourceEntry, hl, hc, decisionCalls]
  | some t =>
    cases hd : x.getUpdateData s t with
    | none => simp [processSourceEntry, hl, hd, decisionCalls]
    | some u =>
      cases hu : pol.update with
      | none => simp [processSourceEntry, hl, hd, hu, decisionCalls]
      | some a => cases a <;> simp [processSourceEntry, hl, hd, hu, decisionCalls]

/-- `itemCreated` emissions of one source-loop callback: in the deferred
continuation, carrying the *original source record*, exactly when the
create branch executed. -/
theorem itemCreated_processSourceEntry {S T U : Type} (x : ExchangeStrategies S T U)
    (pol : ExchangePolicyType) (tm : List (String × T)) (k : String) (s : S) :
    itemCreatedEvents (processSourceEntry x pol tm k s).sync = [] ∧
    itemCreatedEvents (processSourceEntry x pol tm k s).deferred =
      (if (lookupKey tm k).isNone && (pol.create == some ActionType.«do»)
       then [s] else []) := by
  cases hl : lookupKey tm k with
  | none =>
    cases hc : pol.create with
    | none => simp [processSourceEntry, hl, hc, itemCreatedEvents]
    | some a => cases a <;> simp [processSourceEntry, hl, hc, itemCreatedEvents]
  | some t =>
    cases hd : x.getUpdateData s t with
    | none => simp [processSourceEntry, hl, hd, itemCreatedEvents]
    | some u =>
      cases hu : pol.update with
      | none => simp [processSourceEntry, hl, hd, hu, itemCreatedEvents]
      | some a => cases a <;> simp [processSourceEntry, hl, hd, hu, itemCreatedEvents]

/-- `itemUpdated` emissions of one source-loop callback: in the deferred
continuation, exactly when an update write was dispatched. -/
theorem itemUpdated_processSourceEntry {S T U : Type} (x : ExchangeStrategies S T U)
    (pol : ExchangePolicyType) (tm : List (String × T)) (k : String) (s : S) :
    itemUpdatedEvents (processSourceEntry x pol tm k s).sync = [] ∧
    itemUpdatedEvents (processSourceEntry x pol tm k s).deferred =
      (if pol.update == some ActionType.«do»
       then ((lookupKey tm k).bind (x.getUpdateData s)).toList else []) := by
  cases hl : lookupKey tm k with
  | none =>
    cases hc : pol.create with
    | none => simp [processSourceEntry, hl, hc, itemUpdatedEvents]
    | some a => cases a <;> simp [processSourceEntry, hl, hc, itemUpdatedEvents]
  | some t =>
    cases hd : x.getUpdateData s t with
    | none => simp [processSourceEntry, hl, hd, itemUpdatedEvents]
    | some u =>
      cases hu : pol.update with
      | none => simp [processSourceEntry, hl, hd, hu, itemUpdatedEvents]
      | some a => cases a <;> simp [processSourceEntry, hl, hd, hu, itemUpdatedEvents]

/-- A source-loop callback never dispatches delete writes or `itemDeleted`
events. -/
theorem deletes_processSourceEntry {S T U : Type} (x : ExchangeStrategies S T U)
    (pol : ExchangePolicyType) (tm : List (String × T)) (k : String) (s : S) :
    deleteCalls (processSourceEntry x pol tm k s).sync = [] ∧
    deleteCalls (processSourceEntry x pol tm k s).deferred = [] ∧
    itemDeletedEvents (processSourceEntry x pol tm k s).sync = [] ∧
    itemDeletedEvents (processSourceEntry x pol tm k s).deferred = [] := by
  cases hl : lookupKey tm k with
  | none =>
    cases hc : pol.create with
    | none => simp [processSourceEntry, hl, hc, deleteCalls, itemDeletedEvents]
    | some a =>
      cases a <;> simp [processSourceEntry, hl, hc, deleteCalls, itemDeletedEvents]
  | some t =>
    cases hd : x.getUpdateData s t with
    | none => simp [processSourceEntry, hl, hd, deleteCalls, itemDeletedEvents]
    | some u =>
      cases hu : pol.update with
      | none => simp [processSourceEntry, hl, hd, hu, deleteCalls, itemDeletedEvents]
      | some a =>
        cases a <;> simp [processSourceEntry, hl, hd, hu, deleteCalls, itemDeletedEvents]

/-- Delete writes and `itemDeleted` emissions of one target-loop callback:
exactly one of each, for the target record itself, when the key is absent
from the source map and the delete policy is `"do"`. -/
theorem deletes_processTargetEntry {S T U : Type}
    (pol : ExchangePolicyType) (sm : List (String × S)) (k : String) (t : T) :
    deleteCalls (processTargetEntry (S := S) (U := U) pol sm k t).sync =
      (if !(hasKey sm k) && (pol.delete == some ActionType.«do»)
       then [t] else []) ∧
    deleteCalls (processTargetEntry (S := S) (U := U) pol sm k t).deferred = [] ∧
    itemDeletedEvents (processTargetEntry (S := S) (U := U) pol sm k t).sync = [] ∧
    itemDeletedEvents (processTargetEntry (S := S) (U := U) pol sm k t).deferred =
      (if !(hasKey sm k) && (pol.delete == some ActionType.«do»)
       then [t] else []) := by
  cases hh : hasKey sm k with
  | true => simp [processTargetEntry, hh, deleteCalls, itemDeletedEvents]
  | false =>
    cases hc : pol.delete with
    | none => simp [processTargetEntry, hh, hc, deleteCalls, itemDeletedEvents]
    | some a =>
      cases a <;> simp [processTargetEntry, hh, hc, deleteCalls, itemDeletedEvents]

/-- A target-loop callback dispatches no create or update writes, no
strategy invocations, and no `itemCreated` / `itemUpdated` events. -/
theorem others_processTargetEntry {S T U : Type}
    (pol : ExchangePolicyType) (sm : List (String × S)) (k : String) (t : T) :
    createCalls (processTargetEntry (S := S) (U := U) pol sm k t).sync = [] ∧
    createCalls (processTargetEntry (S := S) (U := U) pol sm k t).deferred = [] ∧
    updateCalls (processTargetEntry (S := S) (U := U) pol sm k t).sync = [] ∧
    updateCalls (processTargetEntry (S := S) (U := U) pol sm k t).deferred = [] ∧
    decisionCalls (processTargetEntry (S := S) (U := U) pol sm k t).sync = [] ∧
    decisionCalls (processTargetEntry (S := S) (U := U) pol sm k t).deferred = [] ∧
    itemCreatedEvents (processTargetEntry (S := S) (U := U) pol sm k t).sync = [] ∧
    itemCreatedEvents (processTargetEntry (S := S) (U := U) pol sm k t).deferred = [] ∧
    itemUpdatedEvents (processTargetEntry (S := S) (U := U) pol sm k t).sync = [] ∧
    itemUpdatedEvents (processTargetEntry (S := S) (U := U) pol sm k t).deferred = [] := by
  cases hh : hasKey sm k with
  | true =>
    simp [processTargetEntry, hh, createCalls, updateCalls, decisionCalls,
      itemCreatedEvents, itemUpdatedEvents]
  | false =>
    cases hc : pol.delete with
    | none =>
      simp [processTargetEntry, hh, hc, createCalls, updateCalls, decisionCalls,
        itemCreatedEvents, itemUpdatedEvents]
    | some a =>
      cases a <;>
        simp [processTargetEntry, hh, hc, createCalls, updateCalls, decisionCalls,
          itemCreatedEvents, itemUpdatedEvents]

/-- A `flatMap` after a `map` folds into one `flatMap`. -/
theorem flatMap_map {α β γ : Type} (g : α → β) (h : β → List γ) :
    ∀ l : List α, (l.map g).flatMap h = l.flatMap fun a => h (g a) := by
  intro l
  induction l with
  | nil => rfl
  | cons a rest ih => simp [List.flatMap_cons, ih]

/- Each projection distributes over list append and `flatMap`. -/

theorem createCalls_append {S T U : Type} (l1 l2 : List (TraceEntry S T U)) :
    createCalls (l1 ++ l2) = createCalls l1 ++ createCalls l2 := by
  simp [createCalls, List.filterMap_append]

theorem updateCalls_append {S T U : Type} (l1 l2 : List (TraceEntry S T U)) :
    updateCalls (l1 ++ l2) = updateCalls l1 ++ updateCalls l2 := by
  simp [updateCalls, List.filterMap_append]

theorem deleteCalls_append {S T U : Type} (l1 l2 : List (TraceEntry S T U)) :
    deleteCalls (l1 ++ l2) = deleteCalls l1 ++ deleteCalls l2 := by
  simp [deleteCalls, List.filterMap_append]

theorem decisionCalls_append {S T U : Type} (l1 l2 : List (TraceEntry S T U)) :
    decisionCalls (l1 ++ l2) = decisionCalls l1 ++ decisionCalls l2 := by
  simp [decisionCalls, List.filterMap_append]

theorem itemCreatedEvents_append {S T U : Type} (l1 l2 : List (TraceEntry S T U)) :
    itemCreatedEvents (l1 ++ l2) = itemCreatedEvents l1 ++ itemCreatedEvents l2 := by
  simp [itemCreatedEvents, List.filterMap_append]

theorem itemUpdatedEvents_append {S T U : Type} (l1 l2 : List (TraceEntry S T U)) :
    itemUpdatedEvents (l1 ++ l2) = itemUpdatedEvents l1 ++ itemUpdatedEvents l2 := by
  simp [itemUpdatedEvents, List.filterMap_append]

theorem itemDeletedEvents_append {S T U : Type} (l1 l2 : List (TraceEntry S T U)) :
    itemDeletedEvents (l1 ++ l2) = itemDeletedEvents l1 ++ itemDeletedEvents l2 := by
  simp [itemDeletedEvents, List.filterMap_append]

theorem createCalls_flatMap {S T U α : Type} (g : α → List (TraceEntry S T U))
    (l : List α) :
    createCalls (l.flatMap g) = l.flatMap fun a => createCalls (g a) :=
  filterMap_flatMap g _ l

theorem updateCalls_flatMap {S T U α : Type} (g : α → List (TraceEntry S T U))
    (l : List α) :
    updateCalls (l.flatMap g) = l.flatMap fun a => updateCalls (g a) :=
  filterMap_flatMap g _ l

theorem deleteCalls_flatMap {S T U α : Type} (g : α → List (TraceEntry S T U))
    (l : List α) :
    deleteCalls (l.flatMap g) = l.flatMap fun a => deleteCalls (g a) :=
  filterMap_flatMap g _ l

theorem decisionCalls_flatMap {S T U α : Type} (g : α → List (TraceEntry S T U))
    (l : List α) :
    decisionCalls (l.flatMap g) = l.flatMap fun a => decisionCalls (g a) :=
  filterMap_flatMap g _ l

theorem itemCreatedEvents_flatMap {S T U α : Type} (g : α → List (TraceEntry S T U))
    (l : List α) :
    itemCreatedEvents (l.flatMap g) = l.flatMap fun a => itemCreatedEvents (g a) :=
  filterMap_flatMap g _ l

theorem itemUpdatedEvents_flatMap {S T U α : Type} (g : α → List (TraceEntry S T U))
    (l : List α) :
    itemUpdatedEvents (l.flatMap g) = l.flatMap fun a => itemUpdatedEvents (g a) :=
  filterMap_flatMap g _ l

theorem itemDeletedEvents_flatMap {S T U α : Type} (g : α → List (TraceEntry S T U))
    (l : List α) :
    itemDeletedEvents (l.flatMap g) = l.flatMap fun a => itemDeletedEvents (g a) :=
  filterMap_flatMap g _ l

/-- A `flatMap` of constantly empty lists is empty. -/
theorem flatMap_const_nil {α β : Type} (l : List α) :
    (l.flatMap fun _ => ([] : List β)) = [] :=
  flatMap_eq_nil_of _ l fun _ _ => rfl


/-- Binding after an `Option.map` is a single bind. -/
theorem option_map_bind {α β γ : Type} (o : Option α) (g : α → β)
    (h : β → Option γ) :
    (o.map g).bind h = o.bind fun a => h (g a) := by
  cases o <;> rfl

/-- Create-call characterization of a fresh run with unique keys: under
policy `"do"` the dispatched create payloads are exactly the conversions of
the spec's `toCreate` set, in source order; under any other create policy
there are none. -/
theorem createCalls_runFresh {S T U : Type} (x : ExchangeStrategies S T U)
    (pol : ExchangePolicyType) (src : List S) (tgt : List T)
    (hs : (src.map x.getSourceKey).Nodup) (ht : (tgt.map x.getTargetKey).Nodup) :
    createCalls (runFresh x pol src tgt).trace =
      if pol.create = some ActionType.«do»
      then (specToCreate x src tgt).map x.convertSourceToTarget
      else [] := by
  have hpre : createCalls
      ([.evRunBefore, .evSourceDataReady, .evTargetDataReady] :
        List (TraceEntry S T U)) = [] := rfl
  have hra : createCalls ([.evRunAfter] : List (TraceEntry S T U)) = [] := rfl
  rw [runFresh_nodup_eq x pol src tgt hs ht]
  simp only [createCalls_append, createCalls_flatMap, hpre, hra,
    List.nil_append, List.append_nil, sourceOuts, targetOuts,
    List.flatMap_append, flatMap_map]
  simp only [createCalls_processSourceEntry, others_processTargetEntry,
    flatMap_const_nil, List.append_nil, List.nil_append]
  simp only [lookupKey_builtMap, find?_isNone_eq_not_any]
  by_cases hc : pol.create = some ActionType.«do»
  · simp only [hc, beq_self_eq_true, Bool.and_true, if_true, eq_self_iff_true]
    rw [flatMap_ite_singleton]
    simp [specToCreate]
  · simp [hc]

/-- `itemCreated` characterization of a fresh run with unique keys: under
create policy `"do"` the emitted payloads are exactly the spec's `toCreate`
set — the *original source records* — in source order; otherwise none. -/
theorem itemCreatedEvents_runFresh {S T U : Type} (x : ExchangeStrategies S T U)
    (pol : ExchangePolicyType) (src : List S) (tgt : List T)
    (hs : (src.map x.getSourceKey).Nodup) (ht : (tgt.map x.getTargetKey).Nodup) :
    itemCreatedEvents (runFresh x pol src tgt).trace =
      if pol.create = some ActionType.«do» then specToCreate x src tgt else [] := by
  have hpre : itemCreatedEvents
      ([.evRunBefore, .evSourceDataReady, .evTargetDataReady] :
        List (TraceEntry S T U)) = [] := rfl
  have hra : itemCreatedEvents ([.evRunAfter] : List (TraceEntry S T U)) = [] := rfl
  rw [runFresh_nodup_eq x pol src tgt hs ht]
  simp only [itemCreatedEvents_append, itemCreatedEvents_flatMap, hpre, hra,
    List.nil_append, List.append_nil, sourceOuts, targetOuts,
    List.flatMap_append, flatMap_map]
  simp only [itemCreated_processSourceEntry, others_processTargetEntry,
    flatMap_const_nil, List.append_nil, List.nil_append]
  simp only [lookupKey_builtMap, find?_isNone_eq_not_any]
  by_cases hc : pol.create = some ActionType.«do»
  · simp only [hc, beq_self_eq_true, Bool.and_true, if_true, eq_self_iff_true]
    rw [flatMap_ite_singleton]
    simp [specToCreate]
  · simp [hc]

/-- Update-call characterization of a fresh run with unique keys: under
update policy `"do"` the dispatched update payloads are exactly the
non-sentinel results of the decision strategy over the matched pairs, in
source order; otherwise none. -/
theorem updateCalls_runFresh {S T U : Type} (x : ExchangeStrategies S T U)
    (pol : ExchangePolicyType) (src : List S) (tgt : List T)
    (hs : (src.map x.getSourceKey).Nodup) (ht : (tgt.map x.getTargetKey).Nodup) :
    updateCalls (runFresh x pol src tgt).trace =
      if pol.update = some ActionType.«do»
      then (specMatchedPairs x src tgt).filterMap fun p => x.getUpdateData p.1 p.2
      else [] := by
  have hpre : updateCalls
      ([.evRunBefore, .evSourceDataReady, .evTargetDataReady] :
        List (TraceEntry S T U)) = [] := rfl
  have hra : updateCalls ([.evRunAfter] : List (TraceEntry S T U)) = [] := rfl
  rw [runFresh_nodup_eq x pol src tgt hs ht]
  simp only [updateCalls_append, updateCalls_flatMap, hpre, hra,
    List.nil_append, List.append_nil, sourceOuts, targetOuts,
    List.flatMap_append, flatMap_map]
  simp only [updateCalls_processSourceEntry, others_processTargetEntry,
    flatMap_const_nil, List.append_nil, List.nil_append]
  simp only [lookupKey_builtMap]
  by_cases hu : pol.update = some ActionType.«do»
  · simp only [hu, beq_self_eq_true, if_true, eq_self_iff_true]
    rw [flatMap_toList]
    simp [specMatchedPairs, List.filterMap_filterMap, option_map_bind]
  · simp [hu]

/-- `itemUpdated` characterization of a fresh run with unique keys: under
update policy `"do"` the emitted payloads are exactly the non-sentinel
decision results over the matched pairs; otherwise none. -/
theorem itemUpdatedEvents_runFresh {S T U : Type} (x : ExchangeStrategies S T U)
    (pol : ExchangePolicyType) (src : List S) (tgt : List T)
    (hs : (src.map x.getSourceKey).Nodup) (ht : (tgt.map x.getTargetKey).Nodup) :
    itemUpdatedEvents (runFresh x pol src tgt).trace =
      if pol.update = some ActionType.«do»
      then (specMatchedPairs x src tgt).filterMap fun p => x.getUpdateData p.1 p.2
      else [] := by
  have hpre : itemUpdatedEvents
      ([.evRunBefore, .evSourceDataReady, .evTargetDataReady] :
        List (TraceEntry S T U)) = [] := rfl
  have hra : itemUpdatedEvents ([.evRunAfter] : List (TraceEntry S T U)) = [] := rfl
  rw [runFresh_nodup_eq x pol src tgt hs ht]
  simp only [itemUpdatedEvents_append, itemUpdatedEvents_flatMap, hpre, hra,
    List.nil_append, List.append_nil, sourceOuts, targetOuts,
    List.flatMap_append, flatMap_map]
  simp only [itemUpdated_processSourceEntry, others_processTargetEntry,
    flatMap_const_nil, List.append_nil, List.nil_append]
  simp only [lookupKey_builtMap]
  by_cases hu : pol.update = some ActionType.«do»
  · simp only [hu, beq_self_eq_true, if_true, eq_self_iff_true]
    rw [flatMap_toList]
    simp [specMatchedPairs, List.filterMap_filterMap, option_map_bind]
  · simp [hu]

/-- Strategy-call characterization of a fresh run with unique keys: for
*every* policy, `getUpdateData` is invoked exactly on the matched pairs, in
source order. -/
theorem decisionCalls_runFresh {S T U : Type} (x : ExchangeStrategies S T U)
    (pol : ExchangePolicyType) (src : List S) (tgt : List T)
    (hs : (src.map x.getSourceKey).Nodup) (ht : (tgt.map x.getTargetKey).Nodup) :
    decisionCalls (runFresh x pol src tgt).trace = specMatchedPairs x src tgt := by
  have hpre : decisionCalls
      ([.evRunBefore, .evSourceDataReady, .evTargetDataReady] :
        List (TraceEntry S T U)) = [] := rfl
  have hra : decisionCalls ([.evRunAfter] : List (TraceEntry S T U)) = [] := rfl
  rw [runFresh_nodup_eq x pol src tgt hs ht]
  simp only [decisionCalls_append, decisionCalls_flatMap, hpre, hra,
    List.nil_append, List.append_nil, sourceOuts, targetOuts,
    List.flatMap_append, flatMap_map]
  simp only [decisionCalls_processSourceEntry, others_processTargetEntry,
    flatMap_const_nil, List.append_nil, List.nil_append]
  simp only [lookupKey_builtMap]
  rw [flatMap_toList]
  simp [specMatchedPairs]

/-- Delete-call characterization of a fresh run with unique keys: under
delete policy `"do"` the dispatched delete payloads are exactly the spec's
`toDelete` set, in target order; otherwise none. -/
theorem deleteCalls_runFresh {S T U : Type} (x : ExchangeStrategies S T U)
    (pol : ExchangePolicyType) (src : List S) (tgt : List T)
    (hs : (src.map x.getSourceKey).Nodup) (ht : (tgt.map x.getTargetKey).Nodup) :
    deleteCalls (runFresh x pol src tgt).trace =
      if pol.delete = some ActionType.«do» then specToDelete x src tgt else [] := by
  have hpre : deleteCalls
      ([.evRunBefore, .evSourceDataReady, .evTargetDataReady] :
        List (TraceEntry S T U)) = [] := rfl
  have hra : deleteCalls ([.evRunAfter] : List (TraceEntry S T U)) = [] := rfl
  rw [runFresh_nodup_eq x pol src tgt hs ht]
  simp only [deleteCalls_append, deleteCalls_flatMap, hpre, hra,
    List.nil_append, List.append_nil, sourceOuts, targetOuts,
    List.flatMap_append, flatMap_map]
  simp only [deletes_processSourceEntry, deletes_processTargetEntry,
    flatMap_const_nil, List.append_nil, List.nil_append]
  simp only [hasKey_builtMap]
  by_cases hd : pol.delete = some ActionType.«do»
  · simp only [hd, beq_self_eq_true, Bool.and_true, if_true, eq_self_iff_true]
    rw [flatMap_ite_singleton]
    simp [specToDelete]
  · simp [hd]

/-- `itemDeleted` characterization of a fresh run with unique keys: under
delete policy `"do"` the emitted payloads are exactly the spec's `toDelete`
set, in target order; otherwise none. -/
theorem itemDeletedEvents_runFresh {S T U : Type} (x : ExchangeStrategies S T U)
    (pol : ExchangePolicyType) (src : List S) (tgt : List T)
    (hs : (src.map x.getSourceKey).Nodup) (ht : (tgt.map x.getTargetKey).Nodup) :
    itemDeletedEvents (runFresh x pol src tgt).trace =
      if pol.delete = some ActionType.«do» then specToDelete x src tgt else [] := by
  have hpre : itemDeletedEvents
      ([.evRunBefore, .evSourceDataReady, .evTargetDataReady] :
        List (TraceEntry S T U)) = [] := rfl
  have hra : itemDeletedEvents ([.evRunAfter] : List (TraceEntry S T U)) = [] := rfl
  rw [runFresh_nodup_eq x pol src tgt hs ht]
  simp only [itemDeletedEvents_append, itemDeletedEvents_flatMap, hpre, hra,
    List.nil_append, List.append_nil, sourceOuts, targetOuts,
    List.flatMap_append, flatMap_map]
  simp only [deletes_processSourceEntry, deletes_processTargetEntry,
    flatMap_const_nil, List.append_nil, List.nil_append]
  simp only [hasKey_builtMap]
  by_cases hd : pol.delete = some ActionType.«do»
  · simp only [hd, beq_self_eq_true, Bool.and_true, if_true, eq_self_iff_true]
    rw [flatMap_ite_singleton]
    simp [specToDelete]
  · simp [hd]

/-- With unique source keys the matched-pair list has no duplicates: each
matched pair occurs exactly once. -/
theorem specMatchedPairs_nodup {S T U : Type} (x : ExchangeStrategies S T U)
    (src : List S) (tgt : List T) (hs : (src.map x.getSourceKey).Nodup) :
    (specMatchedPairs x src tgt).Nodup := by
  have hsrc : src.Nodup := List.Nodup.of_map _ hs
  refine List.Nodup.filterMap ?_ hsrc
  intro a a' b hb hb'
  rw [Option.mem_def, Option.map_eq_some'] at hb hb'
  obtain ⟨t, _, hbt⟩ := hb
  obtain ⟨t', _, hbt'⟩ := hb'
  have h1 : b.1 = a := by rw [← hbt]
  have h2 : b.1 = a' := by rw [← hbt']
  rw [← h1, h2]

/-- When a run rejects (duplicate key during a build), its trace contains
no write calls, no strategy calls, and no item events: acting never
starts. -/
theorem run_error_projections {S T U : Type} (x : ExchangeStrategies S T U)
    (pol : ExchangePolicyType) (st : ExchangeState S T)
    (srcList : List S) (tgtList : List T) (e : String)
    (he : (run x pol st srcList tgtList).1.error = some e) :
    createCalls (run x pol st srcList tgtList).1.trace = [] ∧
    updateCalls (run x pol st srcList tgtList).1.trace = [] ∧
    deleteCalls (run x pol st srcList tgtList).1.trace = [] ∧
    decisionCalls (run x pol st srcList tgtList).1.trace = [] ∧
    itemCreatedEvents (run x pol st srcList tgtList).1.trace = [] ∧
    itemUpdatedEvents (run x pol st srcList tgtList).1.trace = [] ∧
    itemDeletedEvents (run x pol st srcList tgtList).1.trace = [] := by
  rcases h1 : putTo st.sourceData srcList x.getSourceKey with ⟨m1, oe1⟩
  rcases h2 : putTo st.targetData tgtList x.getTargetKey with ⟨m2, oe2⟩
  simp only [run, h1, h2] at he ⊢
  cases oe1 with
  | some e1 =>
    cases oe2 with
    | some e2 =>
      simp [createCalls, updateCalls, deleteCalls, decisionCalls,
        itemCreatedEvents, itemUpdatedEvents, itemDeletedEvents]
    | none =>
      simp [createCalls, updateCalls, deleteCalls, decisionCalls,
        itemCreatedEvents, itemUpdatedEvents, itemDeletedEvents]
  | none =>
    cases oe2 with
    | some e2 =>
      simp [createCalls, updateCalls, deleteCalls, decisionCalls,
        itemCreatedEvents, itemUpdatedEvents, itemDeletedEvents]
    | none => simp at he

/-- A successful `putTo` implies the inserted keys were pairwise distinct
(and absent from the accumulator). -/
theorem putTo_none_imp {α : Type} (getKey : α → String) :
    ∀ (lst : List α) (acc : List (String × α)),
      (putTo acc lst getKey).2 = none →
      (∀ a ∈ lst, hasKey acc (getKey a) = false) ∧ (lst.map getKey).Nodup := by
  intro lst
  induction lst with
  | nil =>
    intro acc _
    exact ⟨fun a h => absurd h (List.not_mem_nil a), by simp⟩
  | cons a rest ih =>
    intro acc h
    cases hk : hasKey acc (getKey a) with
    | true => rw [putTo, hk] at h; simp at h
    | false =>
      rw [putTo, hk] at h
      simp only [Bool.false_eq_true, if_false] at h
      obtain ⟨hdisj, hnd⟩ := ih (acc ++ [(getKey a, a)]) h
      have hd2 : ∀ b ∈ rest, hasKey acc (getKey b) = false ∧
          (getKey a == getKey b) = false := by
        intro b hb
        have := hdisj b hb
        rw [hasKey_append_single] at this
        exact ⟨(Bool.or_eq_false_iff.mp this).1, (Bool.or_eq_false_iff.mp this).2⟩
      refine ⟨?_, ?_⟩
      · intro b hb
        cases List.mem_cons.mp hb with
        | inl hba => rw [hba]; exact hk
        | inr hbr => exact (hd2 b hbr).1
      · rw [List.map_cons, List.nodup_cons]
        refine ⟨?_, hnd⟩
        intro hmem
        obtain ⟨b, hb, hkey⟩ := List.mem_map.mp hmem
        have := (hd2 b hb).2
        rw [hkey] at this
        simp at this

/-- A failing `putTo` fails with the duplicate-key message of one of the
inserted records' keys. -/
theorem putTo_some_shape {α : Type} (getKey : α → String) :
    ∀ (lst : List α) (acc : List (String × α)) (e : String),
      (putTo acc lst getKey).2 = some e →
      ∃ a ∈ lst, e = dupMsg (getKey a) := by
  intro lst
  induction lst with
  | nil => intro acc e h; simp [putTo] at h
  | cons a rest ih =>
    intro acc e h
    cases hk : hasKey acc (getKey a) with
    | true =>
      rw [putTo, hk] at h
      simp only [if_true] at h
      exact ⟨a, List.mem_cons_self _ _, by
        cases h; rfl⟩
    | false =>
      rw [putTo, hk] at h
      simp only [Bool.false_eq_true, if_false] at h
      obtain ⟨b, hb, he⟩ := ih (acc ++ [(getKey a, a)]) e h
      exact ⟨b, List.mem_cons_of_mem _ hb, he⟩

/- Concrete fixtures for witnesses: the spec §8 scenario
(source `[{id:"1",name:"A"},{id:"2",name:"B"}]`,
target `[{id:"1",name:"A"},{id:"3",name:"C"}]`). -/

def wSrc : List Rec := [⟨"1", "A"⟩, ⟨"2", "B"⟩]

def wTgt : List Rec := [⟨"1", "A"⟩, ⟨"3", "C"⟩]

/-- A source record type distinct from the target's, for exercising the
cross-type conversion. -/
structure SrcRec where
  id : String
  name : String
deriving DecidableEq, Repr

/-- A target record type distinct from the source's. -/
structure TgtRec where
  id : String
  fullName : String
deriving DecidableEq, Repr

/-- Concrete cross-type strategies: key is `id`, conversion renames the
`name` field into `fullName`. -/
def convStrategies : ExchangeStrategies SrcRec TgtRec TgtRec where
  getSourceKey r := r.id
  getTargetKey r := r.id
  getUpdateData s t := if s.name == t.fullName then none else some ⟨s.id, s.name⟩
  convertSourceToTarget s := ⟨s.id, s.name⟩

/-- C1: on unique-keyed inputs, `run` classifies exactly as the spec's
diff: with an executing policy the create writes are exactly (conversions
of) the source records whose key is absent from the target, the delete
writes exactly the target records whose key is absent from the source, and
— under every policy — the update-decision strategy is consulted for
exactly the matched pairs. -/
theorem run_classifies_as_spec_diff {S T U : Type} (x : ExchangeStrategies S T U)
    (src : List S) (tgt : List T)
    (hs : (src.map x.getSourceKey).Nodup) (ht : (tgt.map x.getTargetKey).Nodup) :
    (runFresh x polAllDo src tgt).error = none ∧
    createCalls (runFresh x polAllDo src tgt).trace =
      (specToCreate x src tgt).map x.convertSourceToTarget ∧
    deleteCalls (runFresh x polAllDo src tgt).trace = specToDelete x src tgt ∧
    ∀ pol : ExchangePolicyType,
      decisionCalls (runFresh x pol src tgt).trace = specMatchedPairs x src tgt := by
  refine ⟨?_, ?_, ?_, fun pol => decisionCalls_runFresh x pol src tgt hs ht⟩
  · rw [runFresh_nodup_eq x polAllDo src tgt hs ht]
  · rw [createCalls_runFresh x polAllDo src tgt hs ht]; simp [polAllDo]
  · rw [deleteCalls_runFresh x polAllDo src tgt hs ht]; simp [polAllDo]

/-- C1, witness: the spec §8 scenario, where the diff is one create
(id "2"), one delete (id "3") and one consulted pair (id "1"). -/
theorem run_classifies_as_spec_diff_witness :
    (wSrc.map testStrategies.getSourceKey).Nodup ∧
    (wTgt.map testStrategies.getTargetKey).Nodup ∧
    ((runFresh testStrategies polAllDo wSrc wTgt).error = none ∧
      createCalls (runFresh testStrategies polAllDo wSrc wTgt).trace =
        (specToCreate testStrategies wSrc wTgt).map
          testStrategies.convertSourceToTarget ∧
      deleteCalls (runFresh testStrategies polAllDo wSrc wTgt).trace =
        specToDelete testStrategies wSrc wTgt ∧
      ∀ pol : ExchangePolicyType,
        decisionCalls (runFresh testStrategies pol wSrc wTgt).trace =
          specMatchedPairs testStrategies wSrc wTgt) :=
  ⟨by decide, by decide,
   run_classifies_as_spec_diff testStrategies wSrc wTgt (by decide) (by decide)⟩

/-- C10: for every policy — `"do"`, `"skip"` or `"info"` alike — the
injected `getUpdateData` strategy is invoked exactly once per matched
source/target pair: the invocation list equals the matched-pair list, which
is duplicate-free. -/
theorem getUpdateData_called_once_per_matched_pair {S T U : Type}
    (x : ExchangeStrategies S T U) (pol : ExchangePolicyType)
    (src : List S) (tgt : List T)
    (hs : (src.map x.getSourceKey).Nodup) (ht : (tgt.map x.getTargetKey).Nodup) :
    decisionCalls (runFresh x pol src tgt).trace = specMatchedPairs x src tgt ∧
    (specMatchedPairs x src tgt).Nodup :=
  ⟨decisionCalls_runFresh x pol src tgt hs ht,
   specMatchedPairs_nodup x src tgt hs⟩

/-- C10, witness: under an all-`"skip"` policy the strategy is still
consulted for the single matched pair of the spec §8 scenario. -/
theorem getUpdateData_called_once_per_matched_pair_witness :
    (wSrc.map testStrategies.getSourceKey).Nodup ∧
    (wTgt.map testStrategies.getTargetKey).Nodup ∧
    (decisionCalls (runFresh testStrategies
        ⟨some .skip, some .skip, some .skip⟩ wSrc wTgt).trace =
      specMatchedPairs testStrategies wSrc wTgt ∧
     (specMatchedPairs testStrategies wSrc wTgt).Nodup) :=
  ⟨by decide, by decide,
   getUpdateData_called_once_per_matched_pair testStrategies
     ⟨some .skip, some .skip, some .skip⟩ wSrc wTgt (by decide) (by decide)⟩

/-- C9: under an executing create policy, the `itemCreated` events carry
exactly the original source records of the spec's `toCreate` set, while the
target provider's create calls receive exactly their conversions — the
converted record goes only to the provider, never to subscribers. -/
theorem itemCreated_carries_source_record {S T U : Type}
    (x : ExchangeStrategies S T U) (pol : ExchangePolicyType)
    (src : List S) (tgt : List T)
    (hs : (src.map x.getSourceKey).Nodup) (ht : (tgt.map x.getTargetKey).Nodup)
    (hc : pol.create = some ActionType.«do») :
    itemCreatedEvents (runFresh x pol src tgt).trace = specToCreate x src tgt ∧
    createCalls (runFresh x pol src tgt).trace =
      (specToCreate x src tgt).map x.convertSourceToTarget := by
  rw [itemCreatedEvents_runFresh x pol src tgt hs ht,
    createCalls_runFresh x pol src tgt hs ht]
  simp [hc]

/-- C9, witness: with cross-type strategies, creating `{id:"1",name:"A"}`
sends the converted `TgtRec` to the provider while the event carries the
original `SrcRec`. -/
theorem itemCreated_carries_source_record_witness :
    ([SrcRec.mk "1" "A"].map convStrategies.getSourceKey).Nodup ∧
    (([] : List TgtRec).map convStrategies.getTargetKey).Nodup ∧
    polAllDo.create = some ActionType.«do» ∧
    (itemCreatedEvents (runFresh convStrategies polAllDo
        [SrcRec.mk "1" "A"] []).trace =
      specToCreate convStrategies [SrcRec.mk "1" "A"] [] ∧
     createCalls (runFresh convStrategies polAllDo
        [SrcRec.mk "1" "A"] []).trace =
      (specToCreate convStrategies [SrcRec.mk "1" "A"] []).map
        convStrategies.convertSourceToTarget) :=
  ⟨by decide, by decide, rfl,
   itemCreated_carries_source_record convStrategies polAllDo
     [SrcRec.mk "1" "A"] [] (by decide) (by decide) rfl⟩

/-- C5: for *every* input (duplicate keys included) and every initial
instance state, a policy of `"skip"` for an action kind produces zero
target-provider write calls of that kind and zero corresponding item
events. -/
theorem policy_skip_no_writes_no_events {S T U : Type} (x : ExchangeStrategies S T U)
    (pol : ExchangePolicyType) (st : ExchangeState S T)
    (srcList : List S) (tgtList : List T) :
    (pol.create = some ActionType.skip →
      createCalls (run x pol st srcList tgtList).1.trace = [] ∧
      itemCreatedEvents (run x pol st srcList tgtList).1.trace = []) ∧
    (pol.update = some ActionType.skip →
      updateCalls (run x pol st srcList tgtList).1.trace = [] ∧
      itemUpdatedEvents (run x pol st srcList tgtList).1.trace = []) ∧
    (pol.delete = some ActionType.skip →
      deleteCalls (run x pol st srcList tgtList).1.trace = [] ∧
      itemDeletedEvents (run x pol st srcList tgtList).1.trace = []) := by
  rcases h1 : putTo st.sourceData srcList x.getSourceKey with ⟨m1, oe1⟩
  rcases h2 : putTo st.targetData tgtList x.getTargetKey with ⟨m2, oe2⟩
  simp only [run, h1, h2]
  cases oe1 with
  | some e1 =>
    cases oe2 with
    | some e2 => exact ⟨fun _ => ⟨rfl, rfl⟩, fun _ => ⟨rfl, rfl⟩, fun _ => ⟨rfl, rfl⟩⟩
    | none => exact ⟨fun _ => ⟨rfl, rfl⟩, fun _ => ⟨rfl, rfl⟩, fun _ => ⟨rfl, rfl⟩⟩
  | none =>
    cases oe2 with
    | some e2 => exact ⟨fun _ => ⟨rfl, rfl⟩, fun _ => ⟨rfl, rfl⟩, fun _ => ⟨rfl, rfl⟩⟩
    | none =>
      refine ⟨fun hc => ⟨?_, ?_⟩, fun hu => ⟨?_, ?_⟩, fun hd => ⟨?_, ?_⟩⟩
      · simp only [createCalls_append, createCalls_flatMap, List.flatMap_append,
          flatMap_map, createCalls_processSourceEntry, others_processTargetEntry]
        simp [hc, createCalls, flatMap_const_nil]
      · simp only [itemCreatedEvents_append, itemCreatedEvents_flatMap,
          List.flatMap_append, flatMap_map, itemCreated_processSourceEntry,
          others_processTargetEntry]
        simp [hc, itemCreatedEvents, flatMap_const_nil]
      · simp only [updateCalls_append, updateCalls_flatMap, List.flatMap_append,
          flatMap_map, updateCalls_processSourceEntry, others_processTargetEntry]
        simp [hu, updateCalls, flatMap_const_nil]
      · simp only [itemUpdatedEvents_append, itemUpdatedEvents_flatMap,
          List.flatMap_append, flatMap_map, itemUpdated_processSourceEntry,
          others_processTargetEntry]
        simp [hu, itemUpdatedEvents, flatMap_const_nil]
      · simp only [deleteCalls_append, deleteCalls_flatMap, List.flatMap_append,
          flatMap_map, deletes_processSourceEntry, deletes_processTargetEntry]
        simp [hd, deleteCalls, flatMap_const_nil]
      · simp only [itemDeletedEvents_append, itemDeletedEvents_flatMap,
          List.flatMap_append, flatMap_map, deletes_processSourceEntry,
          deletes_processTargetEntry]
        simp [hd, itemDeletedEvents, flatMap_const_nil]

/-- C5, witness: an all-`"skip"` run over the spec §8 scenario makes no
write call and emits no item event of any kind. -/
theorem policy_skip_no_writes_no_events_witness :
    ((⟨some .skip, some .skip, some .skip⟩ : ExchangePolicyType).create =
        some ActionType.skip) ∧
    (createCalls (run testStrategies ⟨some .skip, some .skip, some .skip⟩
        (freshState Rec Rec) wSrc wTgt).1.trace = [] ∧
     itemCreatedEvents (run testStrategies ⟨some .skip, some .skip, some .skip⟩
        (freshState Rec Rec) wSrc wTgt).1.trace = []) ∧
    (updateCalls (run testStrategies ⟨some .skip, some .skip, some .skip⟩
        (freshState Rec Rec) wSrc wTgt).1.trace = [] ∧
     itemUpdatedEvents (run testStrategies ⟨some .skip, some .skip, some .skip⟩
        (freshState Rec Rec) wSrc wTgt).1.trace = []) ∧
    (deleteCalls (run testStrategies ⟨some .skip, some .skip, some .skip⟩
        (freshState Rec Rec) wSrc wTgt).1.trace = [] ∧
     itemDeletedEvents (run testStrategies ⟨some .skip, some .skip, some .skip⟩
        (freshState Rec Rec) wSrc wTgt).1.trace = []) :=
  ⟨rfl,
   (policy_skip_no_writes_no_events testStrategies
      ⟨some .skip, some .skip, some .skip⟩ (freshState Rec Rec) wSrc wTgt).1 rfl,
   (policy_skip_no_writes_no_events testStrategies
      ⟨some .skip, some .skip, some .skip⟩ (freshState Rec Rec) wSrc wTgt).2.1 rfl,
   (policy_skip_no_writes_no_events testStrategies
      ⟨some .skip, some .skip, some .skip⟩ (freshState Rec Rec) wSrc wTgt).2.2 rfl⟩

/-- C6: whatever the configured update policy, a matched pair for which the
injected strategy returns the no-update sentinel (`false`, here `none`)
contributes no update write and no `itemUpdated` event: (1) the acting
callback for such a pair — whose `sync`/`deferred` output is what `run`
concatenates into its trace — dispatches neither; and (2) over a whole
fresh run the update writes and `itemUpdated` events are exactly the
non-sentinel decision results of the matched pairs (empty unless the
policy is `"do"`), so sentinel pairs never appear. -/
theorem update_sentinel_no_write_no_event {S T U : Type} (x : ExchangeStrategies S T U) :
    (∀ (pol : ExchangePolicyType) (tm : List (String × T)) (k : String) (s : S) (t : T),
        lookupKey tm k = some t → x.getUpdateData s t = none →
        updateCalls ((processSourceEntry x pol tm k s).sync
            ++ (processSourceEntry x pol tm k s).deferred) = [] ∧
        itemUpdatedEvents ((processSourceEntry x pol tm k s).sync
            ++ (processSourceEntry x pol tm k s).deferred) = []) ∧
    (∀ (pol : ExchangePolicyType) (src : List S) (tgt : List T),
        (src.map x.getSourceKey).Nodup → (tgt.map x.getTargetKey).Nodup →
        updateCalls (runFresh x pol src tgt).trace =
          (if pol.update = some ActionType.«do»
           then (specMatchedPairs x src tgt).filterMap fun p => x.getUpdateData p.1 p.2
           else []) ∧
        itemUpdatedEvents (runFresh x pol src tgt).trace =
          (if pol.update = some ActionType.«do»
           then (specMatchedPairs x src tgt).filterMap fun p => x.getUpdateData p.1 p.2
           else [])) := by
  constructor
  · intro pol tm k s t hl hd
    simp [processSourceEntry, hl, hd, updateCalls, itemUpdatedEvents]
  · intro pol src tgt hs ht
    exact ⟨updateCalls_runFresh x pol src tgt hs ht,
      itemUpdatedEvents_runFresh x pol src tgt hs ht⟩

/-- C6, witness: the matched pair (id "1") of the spec §8 scenario needs no
update (`getUpdateData` returns the sentinel), and its callback produces no
update write and no `itemUpdated` event under the default policy; the
whole-run update writes of the scenario are empty under `"do"` as well
because the single matched pair is a sentinel pair. -/
theorem update_sentinel_no_write_no_event_witness :
    lookupKey [("1", Rec.mk "1" "A")] "1" = some (Rec.mk "1" "A") ∧
    testStrategies.getUpdateData (Rec.mk "1" "A") (Rec.mk "1" "A") = none ∧
    (updateCalls ((processSourceEntry testStrategies initialPolicy
          [("1", Rec.mk "1" "A")] "1" (Rec.mk "1" "A")).sync
        ++ (processSourceEntry testStrategies initialPolicy
          [("1", Rec.mk "1" "A")] "1" (Rec.mk "1" "A")).deferred) = [] ∧
     itemUpdatedEvents ((processSourceEntry testStrategies initialPolicy
          [("1", Rec.mk "1" "A")] "1" (Rec.mk "1" "A")).sync
        ++ (processSourceEntry testStrategies initialPolicy
          [("1", Rec.mk "1" "A")] "1" (Rec.mk "1" "A")).deferred) = []) ∧
    (updateCalls (runFresh testStrategies polAllDo wSrc wTgt).trace =
        (if polAllDo.update = some ActionType.«do»
         then (specMatchedPairs testStrategies wSrc wTgt).filterMap
                fun p => testStrategies.getUpdateData p.1 p.2
         else []) ∧
     itemUpdatedEvents (runFresh testStrategies polAllDo wSrc wTgt).trace =
        (if polAllDo.update = some ActionType.«do»
         then (specMatchedPairs testStrategies wSrc wTgt).filterMap
                fun p => testStrategies.getUpdateData p.1 p.2
         else [])) :=
  ⟨rfl, rfl,
   (update_sentinel_no_write_no_event testStrategies).1 initialPolicy
     [("1", Rec.mk "1" "A")] "1" (Rec.mk "1" "A") (Rec.mk "1" "A") rfl rfl,
   (update_sentinel_no_write_no_event testStrategies).2 polAllDo wSrc wTgt
     (by decide) (by decide)⟩

/-- C4, amended: two records with the same key on one side make the build
fail with the error message `Duplicate key "k" found in data.` — naming the
offending key but *not* the side — the run's promise rejects, and no
provider write call (create, update or delete) is made in that pass. -/
theorem duplicate_key_fails_without_writes {S T U : Type} (x : ExchangeStrategies S T U)
    (pol : ExchangePolicyType) (src : List S) (tgt : List T) :
    (¬ (src.map x.getSourceKey).Nodup →
      ∃ e, (runFresh x pol src tgt).error = some e ∧
        (∃ s ∈ src, e = dupMsg (x.getSourceKey s)) ∧
        createCalls (runFresh x pol src tgt).trace = [] ∧
        updateCalls (runFresh x pol src tgt).trace = [] ∧
        deleteCalls (runFresh x pol src tgt).trace = []) ∧
    ((src.map x.getSourceKey).Nodup → ¬ (tgt.map x.getTargetKey).Nodup →
      ∃ e, (runFresh x pol src tgt).error = some e ∧
        (∃ t ∈ tgt, e = dupMsg (x.getTargetKey t)) ∧
        createCalls (runFresh x pol src tgt).trace = [] ∧
        updateCalls (runFresh x pol src tgt).trace = [] ∧
        deleteCalls (runFresh x pol src tgt).trace = []) := by
  constructor
  · intro hnd
    rcases hp : putTo ([] : List (String × S)) src x.getSourceKey with ⟨m1, oe1⟩
    cases oe1 with
    | none => exact absurd (putTo_none_imp x.getSourceKey src [] (by rw [hp])).2 hnd
    | some e =>
      have herr : (runFresh x pol src tgt).error = some e := by
        rcases hq : putTo ([] : List (String × T)) tgt x.getTargetKey with ⟨m2, oe2⟩
        simp [runFresh, run, freshState, hp, hq]
      have hshape := putTo_some_shape x.getSourceKey src [] e (by rw [hp])
      have hproj := run_error_projections x pol (freshState S T) src tgt e herr
      exact ⟨e, herr, hshape, hproj.1, hproj.2.1, hproj.2.2.1⟩
  · intro hsnd hnd
    rcases hq : putTo ([] : List (String × T)) tgt x.getTargetKey with ⟨m2, oe2⟩
    cases oe2 with
    | none => exact absurd (putTo_none_imp x.getTargetKey tgt [] (by rw [hq])).2 hnd
    | some e =>
      have hp : putTo ([] : List (String × S)) src x.getSourceKey =
          (builtMap x.getSourceKey src, none) := by
        rw [putTo_ok x.getSourceKey src [] hsnd fun a _ => rfl]
        simp [builtMap]
      have herr : (runFresh x pol src tgt).error = some e := by
        simp [runFresh, run, freshState, hp, hq]
      have hshape := putTo_some_shape x.getTargetKey tgt [] e (by rw [hq])
      have hproj := run_error_projections x pol (freshState S T) src tgt e herr
      exact ⟨e, herr, hshape, hproj.1, hproj.2.1, hproj.2.2.1⟩

/-- C4 (amended), witness: a duplicate of key "1" in the source records,
and in a second configuration in the target records, makes the run fail
with the key-naming message and no writes. -/
theorem duplicate_key_fails_without_writes_witness :
    (¬ ([Rec.mk "1" "A", Rec.mk "1" "B"].map
        testStrategies.getSourceKey).Nodup) ∧
    (∃ e, (runFresh testStrategies polAllDo
        [Rec.mk "1" "A", Rec.mk "1" "B"] [Rec.mk "2" "X"]).error = some e ∧
      (∃ s ∈ [Rec.mk "1" "A", Rec.mk "1" "B"],
        e = dupMsg (testStrategies.getSourceKey s)) ∧
      createCalls (runFresh testStrategies polAllDo
        [Rec.mk "1" "A", Rec.mk "1" "B"] [Rec.mk "2" "X"]).trace = [] ∧
      updateCalls (runFresh testStrategies polAllDo
        [Rec.mk "1" "A", Rec.mk "1" "B"] [Rec.mk "2" "X"]).trace = [] ∧
      deleteCalls (runFresh testStrategies polAllDo
        [Rec.mk "1" "A", Rec.mk "1" "B"] [Rec.mk "2" "X"]).trace = []) ∧
    (∃ e, (runFresh testStrategies polAllDo
        [Rec.mk "2" "X"] [Rec.mk "1" "A", Rec.mk "1" "B"]).error = some e ∧
      (∃ t ∈ [Rec.mk "1" "A", Rec.mk "1" "B"],
        e = dupMsg (testStrategies.getTargetKey t)) ∧
      createCalls (runFresh testStrategies polAllDo
        [Rec.mk "2" "X"] [Rec.mk "1" "A", Rec.mk "1" "B"]).trace = [] ∧
      updateCalls (runFresh testStrategies polAllDo
        [Rec.mk "2" "X"] [Rec.mk "1" "A", Rec.mk "1" "B"]).trace = [] ∧
      deleteCalls (runFresh testStrategies polAllDo
        [Rec.mk "2" "X"] [Rec.mk "1" "A", Rec.mk "1" "B"]).trace = []) :=
  ⟨by decide,
   (duplicate_key_fails_without_writes testStrategies polAllDo
      [Rec.mk "1" "A", Rec.mk "1" "B"] [Rec.mk "2" "X"]).1 (by decide),
   (duplicate_key_fails_without_writes testStrategies polAllDo
      [Rec.mk "2" "X"] [Rec.mk "1" "A", Rec.mk "1" "B"]).2 (by decide) (by decide)⟩
